import Mathlib

/-!
# Verification of jaeger-client-go identifier and throttler code

Shallow embedding of the Go sources of `uber/jaeger-client-go`:
`context.go` (TraceID / SpanID / SpanContext, their string forms and
parsers, sampling-state flag operations, baggage), the Zipkin B3 HTTP
header propagator, and `internal/throttler/remote/throttler.go`.

Modelling conventions:
* Go `uint64` values are `ℕ` together with a `< 2^64` bound where it
  matters; Go strings are `List Char` of their (ASCII) characters, with
  `String` wrappers at the boundary.
* `float64` credit arithmetic is modelled exactly over `ℚ` (the claims
  under study are algebraic and do not depend on rounding).
* Stateful methods become explicit state-passing functions; the HTTP
  credit manager is an oracle argument, and observable side effects
  (log calls, outbound requests) are returned as an event list.
-/

namespace Jaeger

/-- Lowercase hexadecimal digit character, as produced by Go's `%x` verb:
`0`-`9` then `a`-`f`. -/
def hexDigitChar (d : ℕ) : Char :=
  if d < 10 then Char.ofNat (48 + d) else Char.ofNat (87 + d)

/-- Fuel-indexed core of Go's `%x` formatting of an unsigned integer:
emit the digits of `n` in base 16, most significant first, in front of
`acc`. The fuel only serves structural recursion; `fuel > n` is enough. -/
def toHexCore : ℕ → ℕ → List Char → List Char
  | 0, _, acc => acc
  | fuel + 1, n, acc =>
    if n < 16 then hexDigitChar n :: acc
    else toHexCore fuel (n / 16) (hexDigitChar (n % 16) :: acc)

/-- The hex rendering of `n` by Go's `%x` verb (lowercase, no padding,
`"0"` for zero). -/
def hexDigits (n : ℕ) : List Char := toHexCore (n + 1) n []

theorem hexDigits_of_lt {n : ℕ} (h : n < 16) :
    hexDigits n = [hexDigitChar n] := by
  simp [hexDigits, toHexCore, h]

theorem toHexCore_eq_hexDigits_append :
    ∀ n fuel acc, n < fuel → toHexCore fuel n acc = hexDigits n ++ acc := by
  intro n
  induction n using Nat.strong_induction_on with
  | _ n ih =>
    intro fuel acc hfuel
    match fuel, hfuel with
    | fuel + 1, hfuel =>
      by_cases h16 : n < 16
      · simp [toHexCore, h16, hexDigits_of_lt h16]
      · have hdiv : n / 16 < n := Nat.div_lt_self (by omega) (by omega)
        have h1 : toHexCore (fuel + 1) n acc
            = toHexCore fuel (n / 16) (hexDigitChar (n % 16) :: acc) := by
          simp [toHexCore, h16]
        have h2 := ih (n / 16) hdiv fuel (hexDigitChar (n % 16) :: acc) (by omega)
        have h3 : hexDigits n
            = toHexCore n (n / 16) [hexDigitChar (n % 16)] := by
          simp [hexDigits, toHexCore, h16]
        have h4 := ih (n / 16) hdiv n [hexDigitChar (n % 16)] (by omega)
        rw [h1, h2, h3, h4]
        simp

theorem hexDigits_of_ge {n : ℕ} (h : 16 ≤ n) :
    hexDigits n = hexDigits (n / 16) ++ [hexDigitChar (n % 16)] := by
  have h3 : hexDigits n = toHexCore n (n / 16) [hexDigitChar (n % 16)] := by
    simp [hexDigits, toHexCore, Nat.not_lt.mpr h]
  have hdiv : n / 16 < n := Nat.div_lt_self (by omega) (by omega)
  rw [h3, toHexCore_eq_hexDigits_append (n / 16) n _ hdiv]

theorem hexDigits_ne_nil (n : ℕ) : hexDigits n ≠ [] := by
  by_cases h : n < 16
  · simp [hexDigits_of_lt h]
  · simp [hexDigits_of_ge (Nat.not_lt.mp h)]

theorem hexDigits_length_pos (n : ℕ) : 0 < (hexDigits n).length :=
  List.length_pos.mpr (hexDigits_ne_nil n)

/-- The hex rendering of `n < 16^k` needs at most `k` digits. -/
theorem hexDigits_length_le :
    ∀ n k, n < 16 ^ k → 1 ≤ k → (hexDigits n).length ≤ k := by
  intro n
  induction n using Nat.strong_induction_on with
  | _ n ih =>
    intro k hn hk
    by_cases h16 : n < 16
    · simp [hexDigits_of_lt h16, hk]
    · push_neg at h16
      have hdiv : n / 16 < n := Nat.div_lt_self (by omega) (by omega)
      have hk2 : 2 ≤ k := by
        by_contra hc
        have : k = 1 := by omega
        subst this
        simp at hn
        omega
      have hbound : n / 16 < 16 ^ (k - 1) := by
        rw [Nat.div_lt_iff_lt_mul (by omega : 0 < 16)]
        calc n < 16 ^ k := hn
        _ = 16 ^ (k - 1) * 16 := by
          rw [← pow_succ]
          congr 1
          omega
      have := ih (n / 16) hdiv (k - 1) hbound (by omega)
      rw [hexDigits_of_ge h16]
      simp only [List.length_append, List.length_cons, List.length_nil]
      omega

/-- Value of a hexadecimal digit character, both cases accepted,
as in Go's `strconv.ParseUint` with base 16. -/
def hexVal (c : Char) : Option ℕ :=
  if 48 ≤ c.toNat ∧ c.toNat ≤ 57 then some (c.toNat - 48)
  else if 97 ≤ c.toNat ∧ c.toNat ≤ 102 then some (c.toNat - 87)
  else if 65 ≤ c.toNat ∧ c.toNat ≤ 70 then some (c.toNat - 55)
  else none

/-- Value of a decimal digit character, as in Go's `strconv.ParseUint`
with base 10. -/
def decVal (c : Char) : Option ℕ :=
  if 48 ≤ c.toNat ∧ c.toNat ≤ 57 then some (c.toNat - 48) else none

/-- Digit-accumulating loop of Go's `strconv.ParseUint`: fails on the
first character that is not a digit of the base. -/
def parseDigitsAcc (dv : Char → Option ℕ) (base : ℕ) :
    List Char → ℕ → Option ℕ
  | [], a => some a
  | c :: cs, a =>
    match dv c with
    | some d => parseDigitsAcc dv base cs (a * base + d)
    | none => none

/-- Go's `strconv.ParseUint(s, base, bitSize)` for an explicitly given
base (no sign, no base prefix, no underscores are accepted then): errors
on the empty string, on an invalid digit, and on values `≥ 2^bitSize`
(Go's `ErrRange`). `none` stands for a non-nil error. -/
def parseUintGo (dv : Char → Option ℕ) (bitSize : ℕ) (base : ℕ)
    (s : List Char) : Option ℕ :=
  if s = [] then none
  else
    match parseDigitsAcc dv base s 0 with
    | some v => if v < 2 ^ bitSize then some v else none
    | none => none

theorem parseDigitsAcc_append (dv : Char → Option ℕ) (base : ℕ)
    (xs ys : List Char) :
    ∀ a, parseDigitsAcc dv base (xs ++ ys) a
      = (parseDigitsAcc dv base xs a).bind (parseDigitsAcc dv base ys) := by
  induction xs with
  | nil => intro a; simp [parseDigitsAcc]
  | cons c cs ihc =>
    intro a
    cases h : dv c with
    | none => simp [parseDigitsAcc, h]
    | some d => simp [parseDigitsAcc, h, ihc]

theorem hexVal_hexDigitChar : ∀ d < 16, hexVal (hexDigitChar d) = some d := by
  decide

/-- Parsing the hex rendering of `n` from accumulator `a` yields
`a * 16 ^ (number of digits) + n`. -/
theorem parseDigitsAcc_hexDigits :
    ∀ n a, parseDigitsAcc hexVal 16 (hexDigits n) a
      = some (a * 16 ^ (hexDigits n).length + n) := by
  intro n
  induction n using Nat.strong_induction_on with
  | _ n ih =>
    intro a
    by_cases h16 : n < 16
    · rw [hexDigits_of_lt h16]
      simp [parseDigitsAcc, hexVal_hexDigitChar n h16]
    · push_neg at h16
      have hdiv : n / 16 < n := Nat.div_lt_self (by omega) (by omega)
      rw [hexDigits_of_ge h16, parseDigitsAcc_append,
        ih (n / 16) hdiv a]
      have hmod : n % 16 < 16 := Nat.mod_lt _ (by omega)
      simp only [Option.bind_some, parseDigitsAcc, hexVal_hexDigitChar _ hmod,
        List.length_append, List.length_cons, List.length_nil]
      have h1 : 16 * (n / 16) + n % 16 = n := Nat.div_add_mod n 16
      generalize (hexDigits (n / 16)).length = L
      generalize n / 16 = q at h1 ⊢
      generalize n % 16 = r at h1 ⊢
      subst h1
      simp only [Option.some_bind]
      ring_nf

theorem parseDigitsAcc_hexDigits_zero (n : ℕ) :
    parseDigitsAcc hexVal 16 (hexDigits n) 0 = some n := by
  rw [parseDigitsAcc_hexDigits n 0]
  simp

theorem parseUintGo_hexDigits {n : ℕ} (h : n < 2 ^ 64) :
    parseUintGo hexVal 64 16 (hexDigits n) = some n := by
  rw [parseUintGo, if_neg (hexDigits_ne_nil n), parseDigitsAcc_hexDigits_zero]
  exact if_pos h

/-- Leading zeros do not change the parsed value (from accumulator 0),
for any digit function that maps `'0'` to `0`. -/
theorem parseDigitsAcc_replicate_zero (dv : Char → Option ℕ) (base : ℕ)
    (h0 : dv '0' = some 0) :
    ∀ k xs, parseDigitsAcc dv base (List.replicate k '0' ++ xs) 0
      = parseDigitsAcc dv base xs 0 := by
  intro k
  induction k with
  | zero => intro xs; simp
  | succ k ihk =>
    intro xs
    rw [List.replicate_succ]
    simp only [List.cons_append, parseDigitsAcc, h0]
    simpa using ihk xs

/-- TraceID represents the unique 128-bit identifier of a trace
(`context.go`): pair of `uint64` fields `High`, `Low`. -/
structure TraceID where
  High : ℕ
  Low : ℕ
deriving DecidableEq

/-- Model of `TraceID.IsValid` (`context.go`): valid iff not zero. -/
def TraceID.IsValid (t : TraceID) : Bool :=
  decide (t.High ≠ 0) || decide (t.Low ≠ 0)

/-- Go's `%016x`: the hex digits zero-padded on the left to width 16. -/
def pad16 (ds : List Char) : List Char :=
  List.replicate (16 - ds.length) '0' ++ ds

/-- Model of `TraceID.String` (`context.go` 278-283): hex of `Low` when `High = 0`,
else hex of `High` followed by the 16-wide zero-padded hex of `Low`. -/
def TraceID.string (t : TraceID) : List Char :=
  if t.High = 0 then hexDigits t.Low
  else hexDigits t.High ++ pad16 (hexDigits t.Low)

/-- Model of `TraceIDFromString` (`context.go` 286-305): reject more than 32
characters; with more than 16, split the input 16 characters from the
end and parse both halves as 64-bit hex; otherwise parse the whole
input as 64-bit hex into `Low`. -/
def TraceIDFromString (s : List Char) : Option TraceID :=
  if s.length > 32 then none
  else if s.length > 16 then
    match parseUintGo hexVal 64 16 (s.take (s.length - 16)) with
    | none => none
    | some hi =>
      match parseUintGo hexVal 64 16 (s.drop (s.length - 16)) with
      | none => none
      | some lo => some ⟨hi, lo⟩
  else
    match parseUintGo hexVal 64 16 s with
    | none => none
    | some lo => some ⟨0, lo⟩

theorem sixteen_pow_16 : (16 : ℕ) ^ 16 = 2 ^ 64 := by norm_num

theorem hexDigits_length_le_16 {n : ℕ} (h : n < 2 ^ 64) :
    (hexDigits n).length ≤ 16 :=
  hexDigits_length_le n 16 (by rw [sixteen_pow_16]; exact h) (by omega)

theorem pad16_length {ds : List Char} (h : ds.length ≤ 16) :
    (pad16 ds).length = 16 := by
  simp only [pad16, List.length_append, List.length_replicate]
  omega

theorem parseUintGo_pad16_hexDigits {n : ℕ} (h : n < 2 ^ 64) :
    parseUintGo hexVal 64 16 (pad16 (hexDigits n)) = some n := by
  have hne : pad16 (hexDigits n) ≠ [] := by
    intro hc
    exact hexDigits_ne_nil n (by simpa [pad16] using congrArg (List.drop (16 - (hexDigits n).length)) hc)
  rw [parseUintGo, if_neg hne, pad16,
    parseDigitsAcc_replicate_zero hexVal 16 (by decide),
    parseDigitsAcc_hexDigits_zero]
  exact if_pos h

/-- Composition `TraceIDFromString ∘ TraceID.String` is the identity on in-range
trace IDs. -/
theorem traceID_roundtrip {t : TraceID} (hh : t.High < 2 ^ 64)
    (hl : t.Low < 2 ^ 64) :
    TraceIDFromString (TraceID.string t) = some t := by
  obtain ⟨hi, lo⟩ := t
  simp only at hh hl
  by_cases h0 : hi = 0
  · subst h0
    have hlen : (hexDigits lo).length ≤ 16 := hexDigits_length_le_16 hl
    have hs : TraceID.string ⟨0, lo⟩ = hexDigits lo := by
      simp [TraceID.string]
    rw [hs, TraceIDFromString, if_neg (by omega), if_neg (by omega),
      parseUintGo_hexDigits hl]
  · have hlenH : (hexDigits hi).length ≤ 16 := hexDigits_length_le_16 hh
    have hlenHpos : 0 < (hexDigits hi).length := hexDigits_length_pos hi
    have hlenL : (hexDigits lo).length ≤ 16 := hexDigits_length_le_16 hl
    have hpadlen : (pad16 (hexDigits lo)).length = 16 := pad16_length hlenL
    have hs : TraceID.string ⟨hi, lo⟩ = hexDigits hi ++ pad16 (hexDigits lo) := by
      simp [TraceID.string, h0]
    have hslen : (hexDigits hi ++ pad16 (hexDigits lo)).length
        = (hexDigits hi).length + 16 := by
      simp [hpadlen]
    rw [hs, TraceIDFromString, if_neg (by omega), if_pos (by omega)]
    have hsub : (hexDigits hi ++ pad16 (hexDigits lo)).length - 16
        = (hexDigits hi).length := by omega
    rw [hsub, List.take_left, List.drop_left, parseUintGo_hexDigits hh,
      parseUintGo_pad16_hexDigits hl]

/-- C2: for every TraceID `t` with in-range 64-bit halves (including
zero), `TraceIDFromString (t.String())` returns exactly `t` with no
error; the textual form is the lowercase hex of `Low` when `High = 0`,
else `hex(High)` concatenated with the 16-character zero-padded hex of
`Low` — which is `TraceID.string` by definition. -/
theorem C2_traceID_string_roundtrip (t : TraceID)
    (hh : t.High < 2 ^ 64) (hl : t.Low < 2 ^ 64) :
    TraceIDFromString (TraceID.string t) = some t ∧
      (t.High = 0 → TraceID.string t = hexDigits t.Low) ∧
      (t.High ≠ 0 → TraceID.string t
        = hexDigits t.High ++ pad16 (hexDigits t.Low)) := by
  refine ⟨traceID_roundtrip hh hl, ?_, ?_⟩ <;> intro h <;> simp [TraceID.string, h]

/-- C2 witness: the roundtrip evaluated at `TraceID{High: 1, Low: 2}`. -/
theorem C2_witness :
    TraceIDFromString (TraceID.string ⟨1, 2⟩) = some ⟨1, 2⟩ :=
  (C2_traceID_string_roundtrip ⟨1, 2⟩ (by norm_num) (by norm_num)).1

/-- Model of `SpanIDFromString` (`context.go` 318-328): at most 16 characters,
parsed as 64-bit hex. The `SpanID` itself is a `uint64`, modelled as `ℕ`. -/
def SpanIDFromString (s : List Char) : Option ℕ :=
  if s.length > 16 then none
  else parseUintGo hexVal 64 16 s

theorem spanID_roundtrip {n : ℕ} (h : n < 2 ^ 64) :
    SpanIDFromString (hexDigits n) = some n := by
  rw [SpanIDFromString, if_neg (by simpa using hexDigits_length_le_16 h),
    parseUintGo_hexDigits h]

/-- Sampling flag constants (`context.go` 25-30). -/
def flagSampled : ℕ := 1

def flagDebug : ℕ := 2

def flagFirehose : ℕ := 8

/-- Model of `samplingState` (`context.go` 74-76): an atomic int32 of which only
the lower 8 bits are used. The CAS loops of the mutators implement
atomic bitwise updates; they are modelled as the pure updates they
realize. -/
structure samplingState where
  _flags : ℕ
deriving DecidableEq

/-- Model of `samplingState.setFlag` (`context.go` 78-84): atomic `or`. -/
def samplingState.setFlag (s : samplingState) (newFlag : ℕ) : samplingState :=
  ⟨s._flags ||| newFlag⟩

/-- Model of `samplingState.resetFlag` (`context.go` 86-92): atomic and-not
(Go's `&^`). -/
def samplingState.resetFlag (s : samplingState) (newFlag : ℕ) : samplingState :=
  ⟨Nat.ldiff s._flags newFlag⟩

def samplingState.setSampled (s : samplingState) : samplingState :=
  s.setFlag flagSampled

def samplingState.resetSampled (s : samplingState) : samplingState :=
  s.resetFlag flagSampled

/-- Model of `samplingState.setFlags` (`context.go` 114-116): atomic store of a
byte value into the state. -/
def samplingState.setFlags (_ : samplingState) (flags : ℕ) : samplingState :=
  ⟨flags⟩

def samplingState.isSampled (s : samplingState) : Bool :=
  decide (s._flags &&& flagSampled = flagSampled)

def samplingState.isDebug (s : samplingState) : Bool :=
  decide (s._flags &&& flagDebug = flagDebug)

def samplingState.isFirehose (s : samplingState) : Bool :=
  decide (s._flags &&& flagFirehose = flagFirehose)

theorem testBit_one_succ (i : ℕ) : Nat.testBit 1 (i + 1) = false := by
  rw [Nat.testBit_succ]
  simp

/-- Clearing bit 0 commutes out of a mask whose bit 0 is clear. -/
theorem ldiff_one_land (a g : ℕ) (hg : Nat.testBit g 0 = false) :
    Nat.ldiff a 1 &&& g = a &&& g := by
  apply Nat.eq_of_testBit_eq
  intro i
  simp only [Nat.testBit_land, Nat.testBit_ldiff]
  cases i with
  | zero => rw [hg]; simp
  | succ i => rw [testBit_one_succ]; simp

/-- C9: for every samplingState and flag mask `f`, `setFlag f` sets
exactly the bits of `f` and leaves all other bits unchanged, and
`resetFlag f` clears exactly the bits of `f` and leaves the others
unchanged; in particular `resetSampled` preserves the debug and
firehose bits. -/
theorem C9_setFlag_resetFlag_frame (s : samplingState) (f i : ℕ) :
    ((s.setFlag f)._flags.testBit i = (s._flags.testBit i || f.testBit i)) ∧
    ((s.resetFlag f)._flags.testBit i = (s._flags.testBit i && !(f.testBit i))) ∧
    s.resetSampled.isDebug = s.isDebug ∧
    s.resetSampled.isFirehose = s.isFirehose := by
  refine ⟨Nat.testBit_lor s._flags f i, Nat.testBit_ldiff s._flags f i, ?_, ?_⟩
  · simp only [samplingState.resetSampled, samplingState.resetFlag,
      samplingState.isDebug, flagSampled]
    simp only [ldiff_one_land s._flags flagDebug (by decide)]
  · simp only [samplingState.resetSampled, samplingState.resetFlag,
      samplingState.isFirehose, flagSampled]
    simp only [ldiff_one_land s._flags flagFirehose (by decide)]

/-- Model of `SpanContext` (`context.go` 48-72). Go's nil baggage map and nil
`samplingState` pointer are the `none` cases of the `Option` fields;
the baggage map is an association list read through `List.lookup`. -/
structure SpanContext where
  traceID : TraceID
  spanID : ℕ
  parentID : ℕ
  baggage : Option (List (String × String))
  debugID : String
  samplingState : Option samplingState
deriving DecidableEq

/-- Model of `emptyContext` (`context.go` 36): the zero value of `SpanContext`. -/
def emptyContext : SpanContext := ⟨⟨0, 0⟩, 0, 0, none, "", none⟩

/-- Model of `SpanContext.IsValid` (`context.go` 160-162). -/
def SpanContext.IsValid (c : SpanContext) : Bool :=
  c.traceID.IsValid && decide (c.spanID ≠ 0)

/-- Go map update `m[k] = v` on the association-list model of a map:
drop any existing binding of `k`, add the new one. -/
def goMapSet {α : Type} (m : List (String × α)) (k : String) (v : α) :
    List (String × α) :=
  m.filter (fun p => p.1 != k) ++ [(k, v)]

/-- Baggage reads: a nil map yields no binding. -/
def baggageGet (b : Option (List (String × String))) (k : String) :
    Option String :=
  match b with
  | none => none
  | some m => List.lookup k m

theorem lookup_filterKey_append {α : Type} (m rest : List (String × α))
    (k : String) :
    List.lookup k (m.filter (fun p => p.1 != k) ++ rest)
      = List.lookup k rest := by
  induction m with
  | nil => simp
  | cons p ps ih =>
    obtain ⟨a, b⟩ := p
    by_cases hak : a = k
    · subst hak
      simpa [List.filter_cons] using ih
    · simp only [List.filter_cons]
      have : ((a, b).1 != k) = true := by simpa [bne_iff_ne] using hak
      rw [if_pos this]
      simp only [List.cons_append, List.lookup,
        beq_false_of_ne (Ne.symm hak)]
      exact ih

theorem lookup_goMapSet_ne {α : Type} (m : List (String × α)) (k : String)
    (v : α) (k' : String) (h : k' ≠ k) :
    List.lookup k' (goMapSet m k v) = List.lookup k' m := by
  induction m with
  | nil => simp [goMapSet, List.lookup, beq_false_of_ne h]
  | cons p ps ih =>
    obtain ⟨a, b⟩ := p
    by_cases hak : a = k
    · subst hak
      simp only [goMapSet, List.filter_cons, bne_self_eq_false,
        Bool.false_eq_true, if_false] at ih ⊢
      rw [ih]
      simp [List.lookup, beq_false_of_ne h]
    · simp only [goMapSet, List.filter_cons] at ih ⊢
      have hcond : ((a, b).1 != k) = true := by simpa [bne_iff_ne] using hak
      rw [if_pos hcond]
      by_cases hk'a : k' = a
      · subst hk'a
        simp [List.lookup]
      · simp only [List.cons_append, List.lookup, beq_false_of_ne hk'a]
        exact ih

theorem lookup_goMapSet {α : Type} (m : List (String × α)) (k : String)
    (v : α) (k' : String) :
    List.lookup k' (goMapSet m k v)
      = if k' = k then some v else List.lookup k' m := by
  by_cases h : k' = k
  · subst h
    rw [if_pos rfl, goMapSet, lookup_filterKey_append]
    simp [List.lookup]
  · rw [if_neg h]
    exact lookup_goMapSet_ne m k v k' h

/-- Model of `SpanContext.WithBaggageItem` (`context.go` 248-261): copy the
baggage (or start a fresh map), add the new binding, and rebuild the
context with positional fields — which sets `debugID` to `""`. -/
def SpanContext.WithBaggageItem (c : SpanContext) (key value : String) :
    SpanContext :=
  let newBaggage : List (String × String) :=
    match c.baggage with
    | none => [(key, value)]
    | some m => goMapSet m key value
  ⟨c.traceID, c.spanID, c.parentID, some newBaggage, "", c.samplingState⟩

/-- C8: `WithBaggageItem k v` yields a context whose baggage is the
input's baggage extended with `k ↦ v`, whose traceID, spanID, parentID
and samplingState are unchanged, and whose debugID is empty even when
the input carried one. The source copies the map before inserting, so
the input's own baggage is untouched — in this pure embedding the input
context is a value that the call cannot mutate at all. -/
theorem C8_withBaggageItem_frame (c : SpanContext) (k v k' : String) :
    baggageGet (c.WithBaggageItem k v).baggage k'
        = (if k' = k then some v else baggageGet c.baggage k') ∧
    (c.WithBaggageItem k v).traceID = c.traceID ∧
    (c.WithBaggageItem k v).spanID = c.spanID ∧
    (c.WithBaggageItem k v).parentID = c.parentID ∧
    (c.WithBaggageItem k v).samplingState = c.samplingState ∧
    (c.WithBaggageItem k v).debugID = "" := by
  refine ⟨?_, rfl, rfl, rfl, rfl, rfl⟩
  cases hb : c.baggage with
  | none =>
    by_cases h : k' = k
    · simp [SpanContext.WithBaggageItem, hb, baggageGet, List.lookup, h]
    · simp [SpanContext.WithBaggageItem, hb, baggageGet, List.lookup,
        beq_false_of_ne h, h]
  | some m =>
    simp [SpanContext.WithBaggageItem, hb, baggageGet, lookup_goMapSet]

/-- Go `strings.Split` for the single-character separator used by
`ContextFromString` (`":"`): split into the (possibly empty) chunks
between occurrences of the separator. -/
def goSplit (sep : Char) : List Char → List (List Char)
  | [] => [[]]
  | c :: cs =>
    if c = sep then [] :: goSplit sep cs
    else
      match goSplit sep cs with
      | [] => [[c]]
      | p :: ps => (c :: p) :: ps

theorem goSplit_no_sep {sep : Char} :
    ∀ {a : List Char}, sep ∉ a → goSplit sep a = [a] := by
  intro a
  induction a with
  | nil => intro _; rfl
  | cons c cs ih =>
    intro h
    have hc : ¬(c = sep) := fun he => h (he ▸ List.mem_cons_self c cs)
    have hcs : sep ∉ cs := fun hm => h (List.mem_cons_of_mem c hm)
    simp [goSplit, hc, ih hcs]

theorem goSplit_append {sep : Char} :
    ∀ {a : List Char}, sep ∉ a → ∀ rest,
      goSplit sep (a ++ sep :: rest) = a :: goSplit sep rest := by
  intro a
  induction a with
  | nil => intro _ rest; simp [goSplit]
  | cons c cs ih =>
    intro h rest
    have hc : ¬(c = sep) := fun he => h (he ▸ List.mem_cons_self c cs)
    have hcs : sep ∉ cs := fun hm => h (List.mem_cons_of_mem c hm)
    simp [goSplit, hc, ih hcs rest]

theorem hexDigitChar_ne_colon : ∀ d < 16, hexDigitChar d ≠ ':' := by
  decide

theorem colon_not_mem_hexDigits : ∀ n, ':' ∉ hexDigits n := by
  intro n
  induction n using Nat.strong_induction_on with
  | _ n ih =>
    by_cases h16 : n < 16
    · rw [hexDigits_of_lt h16]
      simp only [List.mem_singleton]
      exact fun he => hexDigitChar_ne_colon n h16 he.symm
    · push_neg at h16
      rw [hexDigits_of_ge h16]
      have hdiv : n / 16 < n := Nat.div_lt_self (by omega) (by omega)
      have hmod : n % 16 < 16 := Nat.mod_lt _ (by omega)
      simp only [List.mem_append, List.mem_singleton]
      rintro (hm | he)
      · exact ih (n / 16) hdiv hm
      · exact hexDigitChar_ne_colon _ hmod he.symm

theorem colon_not_mem_pad16_hexDigits (n : ℕ) :
    ':' ∉ pad16 (hexDigits n) := by
  simp only [pad16, List.mem_append, List.mem_replicate]
  rintro (⟨-, he⟩ | hm)
  · exact absurd he (by decide)
  · exact colon_not_mem_hexDigits n hm

theorem colon_not_mem_traceID_string (t : TraceID) :
    ':' ∉ TraceID.string t := by
  rw [TraceID.string]
  by_cases h : t.High = 0
  · rw [if_pos h]; exact colon_not_mem_hexDigits t.Low
  · rw [if_neg h]
    simp only [List.mem_append]
    rintro (hm | hm)
    · exact colon_not_mem_hexDigits t.High hm
    · exact colon_not_mem_pad16_hexDigits t.Low hm

/-- The `_flags.Load()` of a context's samplingState pointer. On a nil
pointer the Go code would crash; theorems about `SpanContext.string`
always hypothesize a present samplingState. -/
def flagsLoad : Option samplingState → ℕ
  | some s => s._flags
  | none => 0

/-- Model of `SpanContext.String` (`context.go` 164-169): all four fields are
rendered with the `%x` verb (lowercase hexadecimal), the trace ID with
`%x%016x` when `High ≠ 0`. -/
def SpanContext.string (c : SpanContext) : List Char :=
  if c.traceID.High = 0 then
    hexDigits c.traceID.Low ++ ':' :: hexDigits c.spanID
      ++ ':' :: hexDigits c.parentID
      ++ ':' :: hexDigits (flagsLoad c.samplingState)
  else
    (hexDigits c.traceID.High ++ pad16 (hexDigits c.traceID.Low))
      ++ ':' :: hexDigits c.spanID ++ ':' :: hexDigits c.parentID
      ++ ':' :: hexDigits (flagsLoad c.samplingState)

theorem spanContext_string_eq (c : SpanContext) :
    SpanContext.string c
      = TraceID.string c.traceID ++ ':' :: hexDigits c.spanID
        ++ ':' :: hexDigits c.parentID
        ++ ':' :: hexDigits (flagsLoad c.samplingState) := by
  rw [SpanContext.string, TraceID.string]
  by_cases h : c.traceID.High = 0 <;> simp [h]

/-- Error values of `ContextFromString` (`context.go` 33-34 and the
errors propagated from the ID and flags parsers). -/
inductive ContextErr where
  | emptyTracerState
  | malformedTracerState
  | badTraceID
  | badSpanID
  | badParentID
  | badFlags
deriving DecidableEq

/-- Model of `ContextFromString` (`context.go` 172-198): reject the empty string;
split on `":"` and reject anything but exactly 4 parts; parse trace,
span and parent IDs as bounded hex and the flags as 8-bit decimal,
returning `emptyContext` alongside the first error; on success build a
fresh samplingState holding the parsed flags byte. -/
def ContextFromString (value : List Char) :
    SpanContext × Option ContextErr :=
  if value = [] then (emptyContext, some .emptyTracerState)
  else
    match goSplit ':' value with
    | [p0, p1, p2, p3] =>
      match TraceIDFromString p0 with
      | none => (emptyContext, some .badTraceID)
      | some tid =>
        match SpanIDFromString p1 with
        | none => (emptyContext, some .badSpanID)
        | some sid =>
          match SpanIDFromString p2 with
          | none => (emptyContext, some .badParentID)
          | some pid =>
            match parseUintGo decVal 8 10 p3 with
            | none => (emptyContext, some .badFlags)
            | some flags =>
              ({ traceID := tid, spanID := sid, parentID := pid,
                 baggage := none, debugID := "",
                 samplingState := some (samplingState.setFlags ⟨0⟩ flags) },
                none)
    | _ => (emptyContext, some .malformedTracerState)

theorem parseUintGo_decVal_hexDigits_lt10 :
    ∀ f < 10, parseUintGo decVal 8 10 (hexDigits f) = some f := by
  decide

/-- The flags byte 10 breaks the claimed roundtrip: `String` renders the
flags in hex. -/
def c1cx : SpanContext := ⟨⟨0, 1⟩, 1, 0, none, "", some ⟨10⟩⟩

/-- C1 counterexample: the context with traceID low `1`, spanID `1`,
parentID `0` and flags byte `10` prints as `"1:1:0:a"` — the fourth
field is hexadecimal, not the claimed decimal `"10"` — and
`ContextFromString` of that very string fails, because `"a"` does not
parse in base 10. -/
theorem C1_counterexample :
    String.mk (SpanContext.string c1cx) = "1:1:0:a" ∧
    (ContextFromString (SpanContext.string c1cx)).2.isSome = true := by
  decide

theorem goSplit_spanContext_string (c : SpanContext) :
    goSplit ':' (SpanContext.string c)
      = [TraceID.string c.traceID, hexDigits c.spanID,
         hexDigits c.parentID, hexDigits (flagsLoad c.samplingState)] := by
  rw [spanContext_string_eq]
  simp only [List.cons_append, List.append_assoc]
  rw [goSplit_append (colon_not_mem_traceID_string c.traceID),
    goSplit_append (colon_not_mem_hexDigits c.spanID),
    goSplit_append (colon_not_mem_hexDigits c.parentID),
    goSplit_no_sep (colon_not_mem_hexDigits (flagsLoad c.samplingState))]

theorem spanContext_string_ne_nil (c : SpanContext) :
    SpanContext.string c ≠ [] := by
  rw [spanContext_string_eq]
  intro h
  have := congrArg List.length h
  simp only [List.length_append, List.length_cons, List.length_nil] at this
  omega

/-- C1 (amended): for every SpanContext with a present samplingState and
in-range fields, the string form is
`<traceIDHex>:<spanIDHex>:<parentIDHex>:<flagsHex>` — the fourth field
is rendered in lowercase hexadecimal, not decimal — and
`ContextFromString (c.String())` succeeds and preserves traceID, spanID,
parentID and flags whenever the flags byte is below 10, where the
hexadecimal and decimal renderings coincide. -/
theorem C1_spanContext_string_roundtrip (c : SpanContext)
    (st : samplingState) (hss : c.samplingState = some st)
    (hflags : st._flags < 10) (hvalid : c.traceID.IsValid = true)
    (hh : c.traceID.High < 2 ^ 64) (hl : c.traceID.Low < 2 ^ 64)
    (hs : c.spanID < 2 ^ 64) (hp : c.parentID < 2 ^ 64) :
    SpanContext.string c
        = TraceID.string c.traceID ++ ':' :: hexDigits c.spanID
          ++ ':' :: hexDigits c.parentID ++ ':' :: hexDigits st._flags ∧
    ContextFromString (SpanContext.string c)
        = ({ traceID := c.traceID, spanID := c.spanID,
             parentID := c.parentID, baggage := none, debugID := "",
             samplingState := some st }, none) := by
  have hload : flagsLoad c.samplingState = st._flags := by rw [hss]; rfl
  refine ⟨by rw [spanContext_string_eq, hload], ?_⟩
  rw [ContextFromString, if_neg (spanContext_string_ne_nil c),
    goSplit_spanContext_string c, hload]
  simp only [traceID_roundtrip hh hl, spanID_roundtrip hs,
    spanID_roundtrip hp, parseUintGo_decVal_hexDigits_lt10 st._flags hflags,
    samplingState.setFlags]

/-- C1 witness: the amended roundtrip at traceID `{1, 2}`, spanID `3`,
parentID `4`, flags `3` (sampled and debug). -/
theorem C1_witness :
    ContextFromString
        (SpanContext.string ⟨⟨1, 2⟩, 3, 4, none, "", some ⟨3⟩⟩)
      = (⟨⟨1, 2⟩, 3, 4, none, "", some ⟨3⟩⟩, none) :=
  (C1_spanContext_string_roundtrip ⟨⟨1, 2⟩, 3, 4, none, "", some ⟨3⟩⟩ ⟨3⟩
    rfl (by norm_num) (by decide) (by norm_num) (by norm_num)
    (by norm_num) (by norm_num)).2

/-- Spec-side characterization of a well-formed tracer-state string, for
comparison with `ContextFromString`: non-empty, exactly four
colon-separated parts, the first three parsing as bounded hex IDs and
the fourth as an 8-bit decimal. -/
def wellFormedTracerState (value : List Char) : Bool :=
  decide (value ≠ []) &&
    match goSplit ':' value with
    | [p0, p1, p2, p3] =>
      (TraceIDFromString p0).isSome && (SpanIDFromString p1).isSome &&
        (SpanIDFromString p2).isSome && (parseUintGo decVal 8 10 p3).isSome
    | _ => false

/-- C6: `ContextFromString` errors exactly on malformed input — empty,
not exactly four colon-separated parts, a trace/span/parent part that
fails bounded hex parsing, or a flags part that fails 8-bit decimal
parsing — and on every error the returned context is `emptyContext`. -/
theorem C6_contextFromString_errors (value : List Char) :
    ((ContextFromString value).2 = none ↔ wellFormedTracerState value = true) ∧
    ((ContextFromString value).2.isSome = true →
      (ContextFromString value).1 = emptyContext) := by
  rw [ContextFromString, wellFormedTracerState]
  by_cases hv : value = []
  · simp [hv]
  · rw [if_neg hv]
    generalize goSplit ':' value = parts
    rcases parts with - | ⟨p0, - | ⟨p1, - | ⟨p2, - | ⟨p3, - | ⟨p4, rest⟩⟩⟩⟩⟩
    · simp
    · simp
    · simp
    · simp
    · cases h0 : TraceIDFromString p0 with
      | none => simp [hv, h0]
      | some tid =>
        cases h1 : SpanIDFromString p1 with
        | none => simp [hv, h0, h1]
        | some sid =>
          cases h2 : SpanIDFromString p2 with
          | none => simp [hv, h0, h1, h2]
          | some pid =>
            cases h3 : parseUintGo decVal 8 10 p3 with
            | none => simp [hv, h0, h1, h2, h3]
            | some flags => simp [hv, h0, h1, h2, h3]
    · simp

/-- C6 witness: `"a"` has one part, so parsing errors and the empty
context is returned. -/
theorem C6_witness : (ContextFromString ['a']).1 = emptyContext :=
  (C6_contextFromString_errors ['a']).2 (by decide)

/-- Model of `NewSpanContext` (`context.go` 216-228): fresh samplingState, made
sampled when requested. -/
def NewSpanContext (traceID : TraceID) (spanID parentID : ℕ)
    (sampled : Bool) (baggage : Option (List (String × String))) :
    SpanContext :=
  let ss : samplingState :=
    if sampled then samplingState.setSampled ⟨0⟩ else ⟨0⟩
  ⟨traceID, spanID, parentID, baggage, "", some ss⟩

/-- Model of `SpanContext.IsSampled` (`context.go` 145-147). A nil samplingState
would crash in Go; claims apply this only to contexts carrying one. -/
def SpanContext.IsSampled (c : SpanContext) : Bool :=
  match c.samplingState with
  | some s => s.isSampled
  | none => false

/-- Model of `strings.ToLower` restricted to the ASCII header keys the B3
propagator compares (Go's Unicode folding coincides with ASCII folding
on them). -/
def lowerAscii (c : Char) : Char :=
  if 65 ≤ c.toNat ∧ c.toNat ≤ 90 then Char.ofNat (c.toNat + 32) else c

def lowerString (s : String) : String := ⟨s.data.map lowerAscii⟩

/-- Model of `TextMapWriter.Set` on a text-map carrier: a map update. -/
def carrierSet (c : List (String × String)) (k v : String) :
    List (String × String) :=
  goMapSet c k v

/-- Model of `ZipkinB3HTTPHeaderPropagator.Inject` (zipkin propagator source,
lines 36-56) on a text-map carrier: write the trace ID, the parent span
ID when non-zero, the span ID (hex), and the sampled bit as `"1"`/`"0"`. -/
def b3Inject (sc : SpanContext) (carrier : List (String × String)) :
    List (String × String) :=
  let c1 := carrierSet carrier "x-b3-traceid" ⟨TraceID.string sc.traceID⟩
  let c2 :=
    if sc.parentID ≠ 0 then
      carrierSet c1 "x-b3-parentspanid" ⟨hexDigits sc.parentID⟩
    else c1
  let c3 := carrierSet c2 "x-b3-spanid" ⟨hexDigits sc.spanID⟩
  if sc.IsSampled then carrierSet c3 "x-b3-sampled" "1"
  else carrierSet c3 "x-b3-sampled" "0"

/-- The accumulator of `Extract`'s `ForeachKey` closure (zipkin
propagator source, lines 64-81). -/
structure B3Acc where
  traceID : TraceID
  spanID : ℕ
  parentID : ℕ
  sampled : Bool
deriving DecidableEq

/-- One `ForeachKey` step of `Extract`: keys are lowercased before
comparison; `x-b3-sampled` accepts `"1"` and `"true"`; a parse error
aborts the iteration. -/
def b3Step (acc : B3Acc) (kv : String × String) : Option B3Acc :=
  let key := lowerString kv.1
  if key = "x-b3-traceid" then
    match TraceIDFromString kv.2.data with
    | none => none
    | some t => some { acc with traceID := t }
  else if key = "x-b3-parentspanid" then
    match parseUintGo hexVal 64 16 kv.2.data with
    | none => none
    | some v => some { acc with parentID := v }
  else if key = "x-b3-spanid" then
    match parseUintGo hexVal 64 16 kv.2.data with
    | none => none
    | some v => some { acc with spanID := v }
  else if key = "x-b3-sampled" ∧ (kv.2 = "1" ∨ kv.2 = "true") then
    some { acc with sampled := true }
  else some acc

/-- Model of `ZipkinB3HTTPHeaderPropagator.Extract` (zipkin propagator source,
lines 59-94): fold the carrier entries, require a valid trace ID, and
build the context with `NewSpanContext` and nil baggage. `none` models
the returned error (invalid carrier entry or span context not found). -/
def b3Extract (carrier : List (String × String)) : Option SpanContext :=
  match carrier.foldlM b3Step ⟨⟨0, 0⟩, 0, 0, false⟩ with
  | none => none
  | some acc =>
    if acc.traceID.IsValid then
      some (NewSpanContext acc.traceID acc.spanID acc.parentID acc.sampled none)
    else none

/-- C3: injecting a SpanContext with a valid trace ID, non-zero span ID
and no baggage into an empty text-map carrier and extracting it back
succeeds and preserves traceID, spanID, parentID and the sampled flag;
moreover extraction compares header keys case-insensitively, and
`x-b3-sampled: true` also means sampled (shown on a mixed-case
carrier). -/
theorem C3_b3_inject_extract_roundtrip (sc : SpanContext)
    (hvalid : sc.traceID.IsValid = true) (hsz : sc.spanID ≠ 0)
    (hb : sc.baggage = none)
    (hh : sc.traceID.High < 2 ^ 64) (hl : sc.traceID.Low < 2 ^ 64)
    (hs : sc.spanID < 2 ^ 64) (hp : sc.parentID < 2 ^ 64) :
    b3Extract (b3Inject sc [])
        = some (NewSpanContext sc.traceID sc.spanID sc.parentID
            sc.IsSampled none) ∧
    b3Extract [("X-B3-TraceID", "a"), ("X-B3-SpanID", "b"),
               ("X-B3-Sampled", "true")]
        = some (NewSpanContext ⟨0, 10⟩ 11 0 true none) := by
  refine ⟨?_, by decide⟩
  by_cases hpz : sc.parentID = 0 <;> cases hsmp : sc.IsSampled <;>
  · simp +decide only [b3Inject, carrierSet, goMapSet, hpz, hsmp, ne_eq,
      not_true_eq_false, not_false_eq_true, if_true, if_false,
      List.filter_nil, List.nil_append, List.filter_cons,
      List.filter_append, Bool.false_eq_true]
    simp only [List.cons_append, List.singleton_append, List.nil_append]
    simp +decide only [b3Extract, List.foldlM_cons, List.foldlM_nil, b3Step,
      bind, Option.bind, traceID_roundtrip hh hl, parseUintGo_hexDigits hs,
      parseUintGo_hexDigits hp, hvalid, if_true, if_false, false_and,
      true_and, and_false, and_true]

/-- C3 witness: the roundtrip at traceID `{0, 5}`, spanID `6`,
parentID `7`, sampled. -/
theorem C3_witness :
    b3Extract (b3Inject ⟨⟨0, 5⟩, 6, 7, none, "", some ⟨1⟩⟩ [])
      = some (NewSpanContext ⟨0, 5⟩ 6 7
          (SpanContext.IsSampled ⟨⟨0, 5⟩, 6, 7, none, "", some ⟨1⟩⟩) none) :=
  (C3_b3_inject_extract_roundtrip ⟨⟨0, 5⟩, 6, 7, none, "", some ⟨1⟩⟩
    (by decide) (by decide) rfl (by norm_num) (by norm_num) (by norm_num)
    (by norm_num)).1

/-- Model of `creditResponse` (`throttler.go` 35-38); the `float64` credits are
modelled exactly over `ℚ`. -/
structure creditResponse where
  Operation : String
  Credits : ℚ
deriving DecidableEq

/-- Model of `minimumCredits` (`throttler.go` 29-33). -/
def minimumCredits : ℚ := 1

/-- The `Throttler` state the claims depend on (`throttler.go` 66-77):
service name, the uuid cell, and the operation → credits map. -/
structure ThrottlerState where
  service : String
  uuid : String
  credits : List (String × ℚ)
deriving DecidableEq

/-- Observable side effects of throttler operations: error logging and
outbound credit requests to the agent. -/
inductive ThrottlerEvent where
  | loggedError (msg : String)
  | fetchedCredits (uuid service : String) (operations : List String)
deriving DecidableEq

/-- Go map read with zero default: `t.credits[operation]`. -/
def lookupD (m : List (String × ℚ)) (k : String) : ℚ :=
  (List.lookup k m).getD 0

/-- Model of `Throttler.fetchCreditsHelper` (`throttler.go` 171-178): when the
uuid has not been set, log an error and return no credits without
issuing a request; otherwise ask the credit manager, whose behaviour is
the oracle `mgr` (uuid, service, operations ↦ responses). -/
def fetchCreditsHelper
    (mgr : String → String → List String → List creditResponse)
    (t : ThrottlerState) (operations : List String) :
    List creditResponse × List ThrottlerEvent :=
  if t.uuid = "" then
    ([], [.loggedError "Throttler uuid is not set, failed to fetch credits"])
  else
    (mgr t.uuid t.service operations,
      [.fetchedCredits t.uuid t.service operations])

/-- Model of `Throttler.isThrottled` (`throttler.go` 130-138), called under the
write lock: throttled when the balance is below `minimumCredits`,
otherwise debit one credit. -/
def isThrottledLocked (t : ThrottlerState) (operation : String) :
    Bool × ThrottlerState :=
  let credits := lookupD t.credits operation
  if credits < minimumCredits then (true, t)
  else
    (false,
      { t with credits :=
          goMapSet t.credits operation (credits - minimumCredits) })

/-- Model of `Throttler.IsThrottled` (`throttler.go` 99-115): an operation seen
for the first time triggers a synchronous fetch; an empty result leaves
the map unchanged and throttles; otherwise the first response's credits
are stored and the debit logic runs. -/
def IsThrottled (mgr : String → String → List String → List creditResponse)
    (t : ThrottlerState) (operation : String) :
    Bool × ThrottlerState × List ThrottlerEvent :=
  match List.lookup operation t.credits with
  | some _ =>
    let r := isThrottledLocked t operation
    (r.1, r.2, [])
  | none =>
    let fr := fetchCreditsHelper mgr t [operation]
    match fr.1 with
    | [] => (true, t, fr.2)
    | c :: _ =>
      let t' := { t with credits := goMapSet t.credits operation c.Credits }
      let r := isThrottledLocked t' operation
      (r.1, r.2, fr.2)

/-- The accumulation step of `Throttler.fetchCredits`
(`t.credits[credit.Operation] += credit.Credits`). -/
def addCredit (st : ThrottlerState) (c : creditResponse) : ThrottlerState :=
  { st with
    credits := goMapSet st.credits c.Operation (lookupD st.credits c.Operation + c.Credits) }

/-- Model of `Throttler.fetchCredits` (`throttler.go` 154-169): snapshot the
tracked operations, fetch, then add each response's credits onto the
operation's existing balance. -/
def fetchCredits
    (mgr : String → String → List String → List creditResponse)
    (t : ThrottlerState) : ThrottlerState × List ThrottlerEvent :=
  let operations := t.credits.map Prod.fst
  let fr := fetchCreditsHelper mgr t operations
  (fr.1.foldl addCredit t, fr.2)

/-- Model of `Throttler.SetUUID` (`throttler.go` 124-128). -/
def SetUUID (t : ThrottlerState) (uuid : String) : ThrottlerState :=
  { t with uuid := uuid }

theorem lookupD_goMapSet (m : List (String × ℚ)) (k k' : String) (v : ℚ) :
    lookupD (goMapSet m k v) k' = if k' = k then v else lookupD m k' := by
  rw [lookupD, lookup_goMapSet]
  by_cases h : k' = k <;> simp [h, lookupD]

/-- C4: for an operation already in the credits map, `IsThrottled`
returns `false` iff the balance is at least 1.0, exactly then the
balance is debited by 1.0, and no fetch happens; for an absent
operation the synchronous fetch runs first (its events are the call's
events) and an empty result yields `true`. -/
theorem C4_isThrottled_credit_check (mgr : String → String → List String →
    List creditResponse) (t : ThrottlerState) (op : String) :
    (∀ c, List.lookup op t.credits = some c →
      ((IsThrottled mgr t op).1 = false ↔ minimumCredits ≤ c) ∧
      ((IsThrottled mgr t op).1 = false →
        List.lookup op (IsThrottled mgr t op).2.1.credits
          = some (c - minimumCredits)) ∧
      ((IsThrottled mgr t op).1 = true → (IsThrottled mgr t op).2.1 = t) ∧
      (IsThrottled mgr t op).2.2 = []) ∧
    (List.lookup op t.credits = none →
      (IsThrottled mgr t op).2.2 = (fetchCreditsHelper mgr t [op]).2 ∧
      ((fetchCreditsHelper mgr t [op]).1 = [] →
        (IsThrottled mgr t op).1 = true)) := by
  constructor
  · intro c hc
    have hD : lookupD t.credits op = c := by simp [lookupD, hc]
    by_cases hlt : c < minimumCredits
    · have hred : IsThrottled mgr t op = (true, t, []) := by
        simp [IsThrottled, hc, isThrottledLocked, hD, hlt]
      rw [hred]
      simp [not_le.mpr hlt]
    · have hred : IsThrottled mgr t op
          = (false,
             { t with credits := goMapSet t.credits op (c - minimumCredits) },
             []) := by
        simp [IsThrottled, hc, isThrottledLocked, hD, hlt]
      rw [hred]
      simp [not_lt.mp hlt, lookup_goMapSet]
  · intro hc
    rcases hfr : (fetchCreditsHelper mgr t [op]).1 with - | ⟨c, rest⟩
    · have : IsThrottled mgr t op
          = (true, t, (fetchCreditsHelper mgr t [op]).2) := by
        simp [IsThrottled, hc, hfr]
      rw [this]
      exact ⟨rfl, fun _ => rfl⟩
    · refine ⟨?_, fun he => ?_⟩
      · simp [IsThrottled, hc, hfr]
      · exact absurd he (List.cons_ne_nil c rest)

/-- C4 witness: with a balance of 2 credits, the operation is not
throttled and one credit is debited. -/
theorem C4_witness :
    (IsThrottled (fun _ _ _ => []) ⟨"svc", "u", [("op", 2)]⟩ "op").1
      = false :=
  ((C4_isThrottled_credit_check (fun _ _ _ => [])
      ⟨"svc", "u", [("op", 2)]⟩ "op").1 2 rfl).1.mpr
    (by norm_num [minimumCredits])

/-- C10: for an operation absent from the map whose synchronous fetch
returns no credits, `IsThrottled` returns `true` with the state
unchanged and the fetch's events; the operation is not inserted, so the
next call takes the fetch path again. -/
theorem C10_isThrottled_empty_fetch (mgr : String → String → List String →
    List creditResponse) (t : ThrottlerState) (op : String)
    (habs : List.lookup op t.credits = none)
    (hempty : (fetchCreditsHelper mgr t [op]).1 = []) :
    IsThrottled mgr t op = (true, t, (fetchCreditsHelper mgr t [op]).2) ∧
    List.lookup op (IsThrottled mgr t op).2.1.credits = none := by
  have h : IsThrottled mgr t op
      = (true, t, (fetchCreditsHelper mgr t [op]).2) := by
    simp [IsThrottled, habs, hempty]
  exact ⟨h, by rw [h]; exact habs⟩

/-- C10 witness: an agent returning no credits leaves the state intact,
with only the attempted request recorded. -/
theorem C10_witness :
    IsThrottled (fun _ _ _ => []) ⟨"svc", "u", []⟩ "op"
      = (true, ⟨"svc", "u", []⟩,
         [.fetchedCredits "u" "svc" ["op"]]) :=
  (C10_isThrottled_empty_fetch (fun _ _ _ => []) ⟨"svc", "u", []⟩ "op"
    rfl rfl).1

/-- C7: a credit fetch attempted while the stored uuid is empty logs an
error and returns no credits, and no request event is emitted. -/
theorem C7_fetch_requires_uuid (mgr : String → String → List String →
    List creditResponse) (t : ThrottlerState) (ops : List String)
    (h : t.uuid = "") :
    fetchCreditsHelper mgr t ops
      = ([], [.loggedError
          "Throttler uuid is not set, failed to fetch credits"]) ∧
    ∀ u s o, ThrottlerEvent.fetchedCredits u s o
        ∉ (fetchCreditsHelper mgr t ops).2 := by
  have he : fetchCreditsHelper mgr t ops
      = ([], [.loggedError
          "Throttler uuid is not set, failed to fetch credits"]) := by
    simp [fetchCreditsHelper, h]
  refine ⟨he, fun u s o hm => ?_⟩
  rw [he] at hm
  simp at hm

/-- C7 witness: a throttler created with the empty uuid refuses the
fetch. -/
theorem C7_witness :
    fetchCreditsHelper (fun _ _ _ => [⟨"op", 5⟩]) ⟨"svc", "", []⟩ ["op"]
      = ([], [.loggedError
          "Throttler uuid is not set, failed to fetch credits"]) :=
  (C7_fetch_requires_uuid (fun _ _ _ => [⟨"op", 5⟩]) ⟨"svc", "", []⟩
    ["op"] rfl).1

theorem foldl_addCredits (resp : List creditResponse) :
    ∀ (st : ThrottlerState) (op : String),
      lookupD (resp.foldl addCredit st).credits op
      = lookupD st.credits op
        + ((resp.filter (fun c => c.Operation == op)).map
            creditResponse.Credits).sum := by
  induction resp with
  | nil => intro st op; simp
  | cons c cs ih =>
    intro st op
    rw [List.foldl_cons, ih, List.filter_cons]
    simp only [addCredit]
    by_cases h : c.Operation = op
    · have hc : (c.Operation == op) = true := by simp [h]
      simp [hc, lookupD_goMapSet, h] <;> ring
    · have hc : (c.Operation == op) = false := by simp [h]
      simp [hc, lookupD_goMapSet,
        (show ¬(op = c.Operation) from fun he => h he.symm)]

/-- C5 (amended): on every poll, the credits returned for an operation
are added onto its existing balance — the balance after `fetchCredits`
is the old balance plus the sum of that operation's returned credits. -/
theorem C5_fetchCredits_additive (mgr : String → String → List String →
    List creditResponse) (t : ThrottlerState) (op : String) :
    lookupD (fetchCredits mgr t).1.credits op
      = lookupD t.credits op
        + (((fetchCreditsHelper mgr t (t.credits.map Prod.fst)).1.filter
            (fun c => c.Operation == op)).map creditResponse.Credits).sum := by
  rw [fetchCredits]
  exact foldl_addCredits _ t op

/-- An agent that grants one credit per poll, and a throttler tracking
one operation: the concrete instance on which the claimed cap fails. -/
def capMgr : String → String → List String → List creditResponse :=
  fun _ _ _ => [⟨"op", 1⟩]

def capT0 : ThrottlerState := ⟨"svc", "uuid", [("op", 0)]⟩

/-- Iterated background polls of the credit manager from `capT0`. -/
def pollN : ℕ → ThrottlerState
  | 0 => capT0
  | n + 1 => (fetchCredits capMgr (pollN n)).1

theorem pollN_eq (n : ℕ) : pollN n = ⟨"svc", "uuid", [("op", (n : ℚ))]⟩ := by
  induction n with
  | zero => simp [pollN, capT0]
  | succ n ih =>
    rw [pollN, ih]
    simp [fetchCredits, fetchCreditsHelper, capMgr, addCredit, goMapSet,
      lookupD, List.lookup, List.filter] <;> push_cast <;> ring

/-- C5 counterexample: with the concrete agent `capMgr` granting one
credit per poll, the balance of `"op"` after `n` polls is `n`, so no
cap bounds the balances — the code adds credits without applying any
limit (`NewThrottler` carries a TODO for it). -/
theorem C5_counterexample :
    ¬ ∃ cap : ℚ, ∀ n : ℕ, lookupD (pollN n).credits "op" ≤ cap := by
  rintro ⟨cap, hcap⟩
  have h1 := hcap (⌈cap⌉₊ + 1)
  rw [pollN_eq] at h1
  simp [lookupD, List.lookup] at h1
  have h2 : cap ≤ (⌈cap⌉₊ : ℚ) := Nat.le_ceil cap
  push_cast at h1
  linarith

end Jaeger
